import Mathlib

/-!
Verification of the lcd2004-micropython repository: a shallow embedding of
the HD44780/PCF8574 driver (`src/lcd2004.py`) and the scrolling text console
(`src/simple_console.py`), with theorems settling the specification claims.

Strings are modelled as `List Char`; Python byte values as `Nat` (masked with
`&&&` where the source masks); Python `int` as `Int` where negative inputs
matter.  Loops that slice a list down (`_wrap_line`, the flush chunking) are
modelled with a fuel argument equal to the list length, which suffices
whenever the chunk size is positive (the repository always uses 20 and 8).
-/

/-- Character strings of the console layer, modelled as lists of characters. -/
abbrev Text := List Char

/-! ## Geometry and protocol constants (`src/lcd2004.py`, class attributes) -/

/-- `LCD2004._MASK_RS`: register-select bit of the PCF8574 byte. -/
def MASK_RS : Nat := 0x01

/-- `LCD2004._MASK_E`: enable-strobe bit of the PCF8574 byte. -/
def MASK_E : Nat := 0x04

/-- `LCD2004._MASK_BL`: backlight bit of the PCF8574 byte. -/
def MASK_BL : Nat := 0x08

/-- `LCD2004._CMD_CLEAR`. -/
def CMD_CLEAR : Nat := 0x01

/-- `LCD2004._CMD_HOME`. -/
def CMD_HOME : Nat := 0x02

/-- `LCD2004._CMD_ENTRY_MODE`. -/
def CMD_ENTRY_MODE : Nat := 0x04

/-- `LCD2004._CMD_DISPLAY_CTRL`. -/
def CMD_DISPLAY_CTRL : Nat := 0x08

/-- `LCD2004._CMD_FUNCTION_SET`. -/
def CMD_FUNCTION_SET : Nat := 0x20

/-- `LCD2004._CMD_SET_CGRAM`. -/
def CMD_SET_CGRAM : Nat := 0x40

/-- `LCD2004._CMD_SET_DDRAM`. -/
def CMD_SET_DDRAM : Nat := 0x80

/-- `LCD2004._ENTRY_INC`. -/
def ENTRY_INC : Nat := 0x02

/-- `LCD2004._FUNC_2LINE`. -/
def FUNC_2LINE : Nat := 0x08

/-- `LCD2004.COLS`: characters per row. -/
def COLS : Nat := 20

/-- `LCD2004.ROWS`: number of rows. -/
def ROWS : Nat := 4

/-- `LCD2004._ROW_OFFSETS`: DDRAM start address of each visible row. -/
def ROW_OFFSETS : List Nat := [0x00, 0x40, 0x14, 0x54]

/-- `SimpleConsole.MAX_HISTORY`: number of lines kept in the console buffer. -/
def MAX_HISTORY : Nat := 4

/-! ## Generic chunking

Both `SimpleConsole._wrap_line` (`while line: out.append(line[:cols]);
line = line[cols:]`) and `LCD2004.flush` (`for i in range(0, len(buf), 8):
... buf[i:i+8]`) repeatedly slice a fixed-size chunk off the front of a
list.  `chunkList fuel size l` performs that loop; with `fuel = l.length`
and `size ≥ 1` the fuel never runs out, which is the only regime the
repository uses (sizes 20 and 8). -/

/-- Slice `l` into consecutive chunks of `size` elements (last chunk may be
shorter), consuming one unit of fuel per chunk. -/
def chunkList {α : Type} : Nat → Nat → List α → List (List α)
  | _, _, [] => []
  | 0, _, _ => []
  | fuel + 1, size, l => l.take size :: chunkList fuel size (l.drop size)

/-! ## `SimpleConsole` buffer operations (`src/simple_console.py`) -/

/-- `SimpleConsole._wrap_line`: wrap a single string into chunks of at most
`cols` characters; an empty line yields one empty entry (`return out or [""]`). -/
def wrap_line (cols : Nat) (line : Text) : List Text :=
  let out := chunkList line.length cols line
  if out.isEmpty then [[]] else out

/-- Python `text.split("\n")`: split on every newline; the result always has
one more element than the number of newlines (so `"".split("\n") == [""]`). -/
def splitOnNl : Text → List Text
  | [] => [[]]
  | c :: rest =>
    match splitOnNl rest with
    | [] => [[]]
    | h :: t => if c = '\n' then [] :: h :: t else (c :: h) :: t

/-- Entries appended by `SimpleConsole.log` for one input string: each logical
line is wrapped when `wrap` is true, otherwise truncated to `cols` (line 61-64
of `src/simple_console.py`). -/
def logEntries (cols : Nat) (wrap : Bool) (text : Text) : List Text :=
  (splitOnNl text).flatMap (fun l => if wrap then wrap_line cols l else [l.take cols])

/-- `SimpleConsole.log` effect on the buffer: append the new entries, then
trim from the front to `MAX_HISTORY` (`self._buffer = self._buffer[-MAX_HISTORY:]`). -/
def logBuf (cols : Nat) (wrap : Bool) (buf : List Text) (text : Text) : List Text :=
  let b := buf ++ logEntries cols wrap text
  if MAX_HISTORY < b.length then b.drop (b.length - MAX_HISTORY) else b

/-- Console scrolling orientation (`"bottom"` or `"top"`); other strings are
rejected at construction. -/
inductive Orient
  | bottom
  | top
deriving DecidableEq

/-- The `visible` list computed by `SimpleConsole._render` (lines 83-93):
the last `rows` entries for `"bottom"`, the first `rows` for `"top"`, padded
with empty lines above respectively below when shorter than `rows`.
Models `buf[-rows:]` as `drop (length - rows)`, which agrees with Python for
the repository's `rows = 4` (and any `rows ≥ 1`). -/
def renderVisible (rows : Nat) (o : Orient) (buf : List Text) : List Text :=
  let visible :=
    match o with
    | .bottom => buf.drop (buf.length - rows)
    | .top => buf.take rows
  if visible.length < rows then
    match o with
    | .bottom => List.replicate (rows - visible.length) [] ++ visible
    | .top => visible ++ List.replicate (rows - visible.length) []
  else visible

/-- `SimpleConsole._pad_right`: pad with spaces to exactly `width` characters
(`n = width - len(s); return s + (" " * n if n > 0 else "")`). -/
def padRight (s : Text) (width : Nat) : Text :=
  s ++ List.replicate (width - s.length) ' '

/-- The strings written to the display by `SimpleConsole._render`, one per
row: each visible entry truncated to `cols` then right-padded to `cols`
(lines 97-99; `_to_str` is the identity on the `str` entries `log` buffers). -/
def renderRows (cols rows : Nat) (o : Orient) (buf : List Text) : List Text :=
  (renderVisible rows o buf).map (fun t => padRight (t.take cols) cols)

/-- A logical operation issued to the LCD2004 driver by the console. -/
inductive LcdOp
  | setCursor (col row : Nat)
  | write (s : Text)
  | flushOp
deriving DecidableEq

/-- The driver calls made by `SimpleConsole._render` (lines 97-102): for each
visible row index `r`, one `set_cursor(0, r)` followed by one `write` of the
padded row, then a single trailing `flush` (the console constructs its
`LCD2004` with `auto_flush=False`, so no other flush occurs). -/
def renderTrace (cols rows : Nat) (o : Orient) (buf : List Text) : List LcdOp :=
  ((renderVisible rows o buf).enum.map
      (fun p => [LcdOp.setCursor 0 p.1, LcdOp.write (padRight (p.2.take cols) cols)])).flatten
    ++ [LcdOp.flushOp]

/-! ## Python value conversion (`SimpleConsole.log` line 57, `_to_str`) -/

/-- A value passed to the console: either a `str` or a `bytes`/`bytearray`
(byte values in `[0, 256)`). -/
inductive PyVal
  | str (s : Text)
  | bytes (b : List Nat)

/-- Lower-case hex digit for `\xNN` escapes in the Python `bytes` repr. -/
def hexDigitChar (n : Nat) : Char :=
  if n < 10 then Char.ofNat (48 + n) else Char.ofNat (87 + n)

/-- Escape one byte inside a Python `bytes` repr delimited by quote
character code `q`: backslash and the quote are backslash-escaped, tab,
newline and carriage return use their mnemonic escapes, other printable
ASCII stands for itself, and everything else becomes `\xNN`. -/
def byteEscape (q n : Nat) : Text :=
  if n = 92 then [Char.ofNat 92, Char.ofNat 92]
  else if n = q then [Char.ofNat 92, Char.ofNat q]
  else if n = 9 then [Char.ofNat 92, 't']
  else if n = 10 then [Char.ofNat 92, 'n']
  else if n = 13 then [Char.ofNat 92, 'r']
  else if 32 ≤ n ∧ n < 127 then [Char.ofNat n]
  else [Char.ofNat 92, 'x', hexDigitChar (n / 16 % 16), hexDigitChar (n % 16)]

/-- Python `str(b)` for a `bytes` value `b`: the repr `b'...'`, using double
quotes only when the bytes contain a single quote but no double quote. -/
def bytesRepr (b : List Nat) : Text :=
  let q : Nat := if 39 ∈ b ∧ ¬ 34 ∈ b then 34 else 39
  'b' :: Char.ofNat q :: b.flatMap (byteEscape q) ++ [Char.ofNat q]

/-- Python `str(x)` as used at the top of `SimpleConsole.log`
(`text = str(text)`): the identity on `str`, the repr on `bytes`. -/
def pyStr : PyVal → Text
  | .str s => s
  | .bytes b => bytesRepr b

/-- `SimpleConsole.log` on an arbitrary Python value: the input is converted
with `str()` and then buffered (lines 57-67 of `src/simple_console.py`). -/
def logPy (cols : Nat) (wrap : Bool) (buf : List Text) (v : PyVal) : List Text :=
  logBuf cols wrap buf (pyStr v)

/-- Strict UTF-8 decoding of a byte list into characters, rejecting
truncated sequences, bad continuation bytes, overlong encodings, surrogates
and code points above `0x10FFFF`; `none` models `UnicodeError`.  The fuel is
one per decoded character; `fuel = length` always suffices. -/
def utf8DecodeF : Nat → List Nat → Option Text
  | _, [] => some []
  | 0, _ => none
  | fuel + 1, b :: rest =>
    if b < 0x80 then
      (utf8DecodeF fuel rest).map (fun s => Char.ofNat b :: s)
    else if b < 0xC2 then none
    else if b < 0xE0 then
      match rest with
      | c1 :: rest1 =>
        if 0x80 ≤ c1 ∧ c1 < 0xC0 then
          (utf8DecodeF fuel rest1).map
            (fun s => Char.ofNat ((b - 0xC0) * 0x40 + (c1 - 0x80)) :: s)
        else none
      | [] => none
    else if b < 0xF0 then
      match rest with
      | c1 :: c2 :: rest2 =>
        if (0x80 ≤ c1 ∧ c1 < 0xC0) ∧ (0x80 ≤ c2 ∧ c2 < 0xC0) then
          let cp := (b - 0xE0) * 0x1000 + (c1 - 0x80) * 0x40 + (c2 - 0x80)
          if cp < 0x800 ∨ (0xD800 ≤ cp ∧ cp < 0xE000) then none
          else (utf8DecodeF fuel rest2).map (fun s => Char.ofNat cp :: s)
        else none
      | _ => none
    else if b < 0xF5 then
      match rest with
      | c1 :: c2 :: c3 :: rest3 =>
        if (0x80 ≤ c1 ∧ c1 < 0xC0) ∧ (0x80 ≤ c2 ∧ c2 < 0xC0) ∧ (0x80 ≤ c3 ∧ c3 < 0xC0) then
          let cp := (b - 0xF0) * 0x40000 + (c1 - 0x80) * 0x1000 + (c2 - 0x80) * 0x40 + (c3 - 0x80)
          if cp < 0x10000 ∨ 0x10FFFF < cp then none
          else (utf8DecodeF fuel rest3).map (fun s => Char.ofNat cp :: s)
        else none
      | _ => none
    else none

/-- Python `b.decode("utf-8")`: `some` on valid UTF-8, `none` on failure. -/
def utf8Decode (b : List Nat) : Option Text :=
  utf8DecodeF b.length b

/-- `SimpleConsole._to_str` (applied by `_render` to each buffer entry):
the identity on `str`; for `bytes`, UTF-8 decoding, falling back to the
platform's default `x.decode()` (passed in as `fallback`, since MicroPython
ports differ) when UTF-8 decoding fails; `Except.error` models an exception
escaping the helper. -/
def to_str (fallback : List Nat → Except Unit Text) : PyVal → Except Unit Text
  | .str s => .ok s
  | .bytes b =>
    match utf8Decode b with
    | some s => .ok s
    | none => fallback b

/-! ## `LCD2004` driver state and bus-cycle encoding (`src/lcd2004.py`) -/

/-- Driver-side latches and the write buffer of an `LCD2004` instance.
`display_on`, `cursor_on`, `blink_on` model the `1`/`0` latches; `backlight`
holds `_backlight_state`, which the source keeps as `_MASK_BL` or `0x00`. -/
structure LCDState where
  display_on : Bool
  cursor_on : Bool
  blink_on : Bool
  backlight : Nat
  writeBuffer : List Nat
deriving DecidableEq

/-- `LCD2004._write_nibble`: queue one 4-bit transfer.  Appends the masked
high nibble OR'd with the backlight latch and the register-select bit, first
with the enable bit set, then the identical byte with it cleared. -/
def write_nibble (st : LCDState) (byte : Nat) (rs : Bool) : LCDState :=
  let data := (byte &&& 0xF0) ||| st.backlight ||| (if rs then MASK_RS else 0)
  { st with writeBuffer := st.writeBuffer ++ [data ||| MASK_E, data] }

/-- `LCD2004._send_byte`: queue a full 8-bit transfer as two 4-bit cycles,
high nibble first. -/
def send_byte (st : LCDState) (byte : Nat) (rs : Bool) : LCDState :=
  write_nibble (write_nibble st (byte &&& 0xF0) rs) ((byte <<< 4) &&& 0xF0) rs

/-- The chunks sent by `LCD2004.flush`: `buf[i:i+8]` for `i = 0, 8, 16, ...`. -/
def chunksOf8 (buf : List Nat) : List (List Nat) :=
  chunkList buf.length 8 buf

/-- Run the flush loop `for i in range(0, len(buf), 8): self.i2c.writeto(...)`
against a transport `tw` that may fail: returns the outcome (the first
failure, if any, propagates) and the list of chunks actually handed to the
transport, in order.  The loop stops at the first failing call. -/
def runChunks (tw : List Nat → Except String Unit) :
    List (List Nat) → Except String Unit × List (List Nat)
  | [] => (.ok (), [])
  | c :: cs =>
    match tw c with
    | .error e => (.error e, [c])
    | .ok _ =>
      let r := runChunks tw cs
      (r.1, c :: r.2)

/-- `LCD2004.flush`: early-return on an empty buffer, otherwise write the
buffer to the transport in chunks of 8 and clear the buffer in a `finally`
block, so it is cleared whether or not the transport failed.  Returns the
outcome, the remaining write buffer, and the chunks given to the transport. -/
def flushBuffer (tw : List Nat → Except String Unit) (buf : List Nat) :
    Except String Unit × List Nat × List (List Nat) :=
  if buf.isEmpty then (.ok (), buf, [])
  else
    let r := runChunks tw (chunksOf8 buf)
    (r.1, [], r.2)

/-- `LCD2004._command`: queue the command byte (RS=0); for `CLEAR` and `HOME`
flush immediately (the blocking delay is not modelled).  Returns the new
state and the chunks flushed to the transport (none for other commands;
transport success is assumed here — failures are modelled by `flushBuffer`). -/
def command (st : LCDState) (cmd : Nat) : LCDState × List (List Nat) :=
  let st1 := send_byte st (cmd &&& 0xFF) false
  if cmd = CMD_CLEAR ∨ cmd = CMD_HOME then
    ({ st1 with writeBuffer := [] }, chunksOf8 st1.writeBuffer)
  else (st1, [])

/-- `LCD2004._apply_display_state`: re-emit the combined display-control
command from the three latches, flushing afterwards when `auto_flush` is on. -/
def apply_display_state (auto_flush : Bool) (st : LCDState) : LCDState × List (List Nat) :=
  let ctrl := CMD_DISPLAY_CTRL ||| (if st.display_on then 0x04 else 0)
      ||| (if st.cursor_on then 0x02 else 0) ||| (if st.blink_on then 0x01 else 0)
  let r := command st ctrl
  if auto_flush then
    ({ r.1 with writeBuffer := [] }, r.2 ++ chunksOf8 r.1.writeBuffer)
  else r

/-- `LCD2004.set_backlight` together with `_apply_backlight_only`: update the
backlight latch and write that single byte directly to the transport,
bypassing the write buffer entirely.  Returns the new state and the byte
sequences handed to the transport. -/
def set_backlight (st : LCDState) (onOff : Bool) : LCDState × List (List Nat) :=
  let st1 := { st with backlight := if onOff then MASK_BL else 0x00 }
  (st1, [[st1.backlight]])

/-! ## Address resolution and initialization (`LCD2004.__init__`, `_detect_address`) -/

/-- `LCD2004._detect_address`: fail when the scan is empty, else prefer
`0x27`, then `0x3F`, else the first scanned address. -/
def detect_address (scan : List Nat) : Except String Nat :=
  match scan with
  | [] => .error "No I2C devices found for LCD2004."
  | a :: rest =>
    if 0x27 ∈ a :: rest then .ok 0x27
    else if 0x3F ∈ a :: rest then .ok 0x3F
    else .ok a

/-- Line 81 of `src/lcd2004.py`: `addr if addr is not None else
self._detect_address()`.  The boolean records whether the bus was scanned. -/
def resolve_address (cand : Option Nat) (scan : List Nat) : Except String Nat × Bool :=
  match cand with
  | some a => (.ok a, false)
  | none => (detect_address scan, true)

/-- `LCD2004.__init__` (lines 80-115): resolve the address, then run the
power-on sequence (three `0x30` wake nibbles, the `0x20` 4-bit switch, a
flush, function-set, display-control off, clear, entry-mode, the configured
display state, and the standalone backlight byte).  Returns the resolved
address, or the resolution error, together with every byte sequence handed
to the transport, in order (the delays are not modelled; transport success
is assumed).  On a resolution failure nothing is written. -/
def lcdInit (cand : Option Nat) (scan : List Nat) (backlight auto_flush : Bool) :
    Except String Nat × List (List Nat) :=
  match (resolve_address cand scan).1 with
  | .error e => (.error e, [])
  | .ok addr =>
    let st0 : LCDState :=
      { display_on := true, cursor_on := false, blink_on := false,
        backlight := if backlight then MASK_BL else 0x00, writeBuffer := [] }
    let st1 := write_nibble st0 0x30 false
    let st2 := write_nibble st1 0x30 false
    let st3 := write_nibble st2 0x30 false
    let st4 := write_nibble st3 0x20 false
    let w1 := chunksOf8 st4.writeBuffer
    let st5 := { st4 with writeBuffer := ([] : List Nat) }
    let r6 := command st5 (CMD_FUNCTION_SET ||| FUNC_2LINE)
    let r7 := command r6.1 CMD_DISPLAY_CTRL
    let r8 := command r7.1 CMD_CLEAR
    let r9 := command r8.1 (CMD_ENTRY_MODE ||| ENTRY_INC)
    let r10 := apply_display_state auto_flush r9.1
    (.ok addr, w1 ++ r6.2 ++ r7.2 ++ r8.2 ++ r9.2 ++ r10.2 ++ [[r10.1.backlight]])

/-! ## Cursor clamping and custom glyphs (`set_cursor`, `create_char`) -/

/-- The row clamp of `LCD2004.set_cursor` (lines 187-190). -/
def clampRow (row : Int) : Int :=
  let r1 := if row < 0 then 0 else row
  if r1 > 3 then 3 else r1

/-- The column clamp of `LCD2004.set_cursor` (lines 191-194). -/
def clampCol (col : Int) : Int :=
  let c1 := if col < 0 then 0 else col
  if c1 > 19 then 19 else c1

/-- The effective `(col, row)` position of `LCD2004.set_cursor`. -/
def set_cursor_pos (col row : Int) : Int × Int :=
  (clampCol col, clampRow row)

/-- The DDRAM address computed by `LCD2004.set_cursor`:
`self._ROW_OFFSETS[row] + col` after clamping. -/
def set_cursor_addr (col row : Int) : Nat :=
  ROW_OFFSETS.getD (clampRow row).toNat 0 + (clampCol col).toNat

/-- The command byte emitted by `LCD2004.set_cursor`: `_CMD_SET_DDRAM | addr`. -/
def set_cursor_cmd (col row : Int) : Nat :=
  CMD_SET_DDRAM ||| set_cursor_addr col row

/-- `idx = index & 0x07` in `LCD2004.create_char`, with Python's
two's-complement `&` on arbitrary integers (`Int.land` has exactly those
semantics); the value is non-negative, so it is returned as a `Nat`. -/
def create_char_slot (index : Int) : Nat :=
  (Int.land index 7).toNat

/-- The CGRAM address command of `LCD2004.create_char`:
`_CMD_SET_CGRAM | (idx << 3)`. -/
def create_char_cmd (index : Int) : Nat :=
  CMD_SET_CGRAM ||| (create_char_slot index <<< 3)

/-- The eight data bytes of `LCD2004.create_char`: row `i` of the bitmap, or
`0` when the bitmap is shorter, masked with `row & 0x1F`. -/
def create_char_data (bitmap : List Int) : List Nat :=
  (List.range 8).map (fun i => (Int.land (bitmap.getD i 0) 31).toNat)

/-! ## Helper lemmas -/

/-- Concatenating the chunks gives back the original list, whenever the
chunk size is positive and the fuel covers the list length. -/
theorem chunkList_flatten {α : Type} {size : Nat} (hs : 0 < size) :
    ∀ (fuel : Nat) (l : List α), l.length ≤ fuel →
      (chunkList fuel size l).flatten = l := by
  intro fuel
  induction fuel with
  | zero =>
    intro l hl
    have hnil : l = [] := by cases l <;> simp_all
    subst hnil
    simp [chunkList]
  | succ n ih =>
    intro l hl
    cases l with
    | nil => simp [chunkList]
    | cons x xs =>
      simp only [chunkList, List.flatten_cons]
      rw [ih]
      · exact List.take_append_drop _ _
      · rw [List.length_drop]
        simp only [List.length_cons] at hl ⊢
        omega

/-- Every chunk has at most `size` elements and is non-empty when the chunk
size is positive. -/
theorem chunkList_mem {α : Type} {size : Nat} (hs : 0 < size) :
    ∀ (fuel : Nat) (l : List α) (c : List α), c ∈ chunkList fuel size l →
      c.length ≤ size ∧ c ≠ [] := by
  intro fuel
  induction fuel with
  | zero =>
    intro l c hc
    cases l <;> simp [chunkList] at hc
  | succ n ih =>
    intro l c hc
    cases l with
    | nil => simp [chunkList] at hc
    | cons x xs =>
      simp only [chunkList, List.mem_cons] at hc
      rcases hc with h | h
      · subst h
        constructor
        · exact List.length_take_le size (x :: xs)
        · cases hsz : size with
          | zero => omega
          | succ m => simp [List.take]
      · exact ih _ _ h

/-- The chunk list is empty exactly when the input list is empty or the fuel
is zero. -/
theorem chunkList_eq_nil_iff {α : Type} (fuel size : Nat) (l : List α) :
    chunkList fuel size l = [] ↔ l = [] ∨ fuel = 0 := by
  cases fuel <;> cases l <;> simp [chunkList]

/-- Every chunk except possibly the last has exactly `size` elements. -/
theorem chunkList_getD_full {α : Type} {size : Nat} (hs : 0 < size) :
    ∀ (fuel : Nat) (l : List α) (i : Nat), l.length ≤ fuel →
      i + 1 < (chunkList fuel size l).length →
      ((chunkList fuel size l).getD i []).length = size := by
  intro fuel
  induction fuel with
  | zero =>
    intro l i hl hi
    have hnil : l = [] := by cases l <;> simp_all
    subst hnil
    simp [chunkList] at hi
  | succ n ih =>
    intro l i hl hi
    cases l with
    | nil => simp [chunkList] at hi
    | cons x xs =>
      simp only [chunkList, List.length_cons] at hi
      cases i with
      | zero =>
        have hrec : chunkList n size ((x :: xs).drop size) ≠ [] := by
          intro hcon
          rw [hcon] at hi
          simp at hi
        have hdrop : (x :: xs).drop size ≠ [] := by
          intro hcon
          rw [hcon] at hrec
          exact hrec (by cases n <;> simp [chunkList])
        have hlen : size < (x :: xs).length := by
          by_contra hcon
          exact hdrop (List.drop_eq_nil_of_le (by omega))
        simp only [chunkList, List.getD_cons_zero]
        rw [List.length_take]
        omega
      | succ j =>
        simp only [chunkList, List.getD_cons_succ]
        apply ih
        · rw [List.length_drop]
          simp only [List.length_cons] at hl ⊢
          omega
        · omega

/-- `padRight` pads to the requested width or keeps a longer input. -/
theorem padRight_length (s : Text) (width : Nat) :
    (padRight s width).length = max s.length width := by
  simp [padRight]
  omega

/-- `_render` always computes exactly `rows` visible entries. -/
theorem renderVisible_length (rows : Nat) (o : Orient) (buf : List Text) :
    (renderVisible rows o buf).length = rows := by
  cases o <;>
    simp only [renderVisible] <;>
    split <;>
    simp_all [List.length_append, List.length_replicate, List.length_take,
      List.length_drop] <;>
    omega

/-- `SimpleConsole.log` always leaves the buffer equal to the last
`MAX_HISTORY` entries of the extended buffer. -/
theorem logBuf_eq_drop (cols : Nat) (wrap : Bool) (buf : List Text) (text : Text) :
    logBuf cols wrap buf text =
      (buf ++ logEntries cols wrap text).drop
        ((buf ++ logEntries cols wrap text).length - MAX_HISTORY) := by
  simp only [logBuf]
  split
  · rfl
  · rename_i h
    have hz : (buf ++ logEntries cols wrap text).length - MAX_HISTORY = 0 := by omega
    rw [hz, List.drop_zero]

/-- Bitwise difference with an all-ones mask is subtraction from the mask:
the low `k` bits are complemented, everything above is cleared. -/
theorem ldiff_two_pow_sub_one (k m : Nat) :
    Nat.ldiff (2 ^ k - 1) m = (2 ^ k - 1) - m % 2 ^ k := by
  apply Nat.eq_of_testBit_eq
  intro i
  rw [Nat.testBit_ldiff, Nat.testBit_two_pow_sub_one]
  have hr : m % 2 ^ k < 2 ^ k := Nat.mod_lt _ (Nat.two_pow_pos k)
  have h2 : (2 ^ k - 1) - m % 2 ^ k = 2 ^ k - (m % 2 ^ k + 1) := by
    have h1 : 1 ≤ 2 ^ k := Nat.one_le_two_pow
    omega
  rw [h2, Nat.testBit_two_pow_sub_succ hr, Nat.testBit_mod_two_pow]
  by_cases hik : i < k <;> simp [hik]

/-- Python's two's-complement `x & (2^k - 1)` on arbitrary integers equals
`x mod 2^k` (with Python's non-negative `mod` semantics, i.e. `Int.emod`
with a positive modulus). -/
theorem int_land_two_pow_sub_one (i : Int) (k : Nat) :
    Int.land i ((2 ^ k - 1 : Nat) : Int) = i % ((2 ^ k : Nat) : Int) := by
  have h1 : 1 ≤ 2 ^ k := Nat.one_le_two_pow
  cases i with
  | ofNat m =>
    have hdef : Int.land (Int.ofNat m) ((2 ^ k - 1 : Nat) : Int) =
        Int.ofNat (m &&& (2 ^ k - 1)) := rfl
    rw [hdef, Nat.and_pow_two_sub_one_eq_mod]
    exact Int.ofNat_emod m (2 ^ k)
  | negSucc m =>
    have hdef : Int.land (Int.negSucc m) ((2 ^ k - 1 : Nat) : Int) =
        Int.ofNat (Nat.ldiff (2 ^ k - 1) m) := rfl
    rw [hdef, ldiff_two_pow_sub_one]
    have hr : m % 2 ^ k < 2 ^ k := Nat.mod_lt _ (Nat.two_pow_pos k)
    have hd : 2 ^ k * (m / 2 ^ k) + m % 2 ^ k = m := Nat.div_add_mod m (2 ^ k)
    have hm : ((2 ^ k : Nat) : Int) * (m / 2 ^ k : Nat) + (m % 2 ^ k : Nat) = (m : Int) := by
      exact_mod_cast hd
    have hcast : ((2 ^ k - 1 - m % 2 ^ k : Nat) : Int) =
        ((2 ^ k : Nat) : Int) - 1 - (m % 2 ^ k : Nat) := by
      have : m % 2 ^ k ≤ 2 ^ k - 1 := by omega
      push_cast [Nat.cast_sub (by omega : m % 2 ^ k ≤ 2 ^ k - 1),
        Nat.cast_sub h1]
      ring
    have key : (Int.negSucc m) =
        ((2 ^ k - 1 - m % 2 ^ k : Nat) : Int) +
          ((2 ^ k : Nat) : Int) * (-(m / 2 ^ k : Nat) - 1) := by
      rw [Int.negSucc_eq, hcast]
      linear_combination hm
    have hofNat : (Int.ofNat (2 ^ k - 1 - m % 2 ^ k)) =
        ((2 ^ k - 1 - m % 2 ^ k : Nat) : Int) := rfl
    rw [hofNat]
    conv_rhs => rw [key]
    rw [Int.add_mul_emod_self_left]
    rw [Int.emod_eq_of_lt]
    · exact Int.ofNat_nonneg _
    · rw [hcast]
      have : ((m % 2 ^ k : Nat) : Int) ≥ 0 := Int.ofNat_nonneg _
      omega

/-- `x & 0x07` is `x mod 8` for every Python integer. -/
theorem int_land_seven (i : Int) : Int.land i 7 = i % 8 := by
  have h := int_land_two_pow_sub_one i 3
  norm_num at h
  exact h

/-- `x & 0x1F` is `x mod 32` for every Python integer. -/
theorem int_land_thirtyone (i : Int) : Int.land i 31 = i % 32 := by
  have h := int_land_two_pow_sub_one i 5
  norm_num at h
  exact h

/-- The flush loop never re-sends a chunk and never skips ahead: the chunks
actually handed to the transport are an initial segment of the chunk list. -/
theorem runChunks_initial_segment (tw : List Nat → Except String Unit) :
    ∀ cs : List (List Nat), ∃ rest, (runChunks tw cs).2 ++ rest = cs := by
  intro cs
  induction cs with
  | nil => exact ⟨[], rfl⟩
  | cons c cs ih =>
    simp only [runChunks]
    cases htw : tw c with
    | error e => exact ⟨cs, rfl⟩
    | ok u =>
      obtain ⟨rest, hrest⟩ := ih
      exact ⟨rest, by simp [hrest]⟩

/-- When every chunk write succeeds the loop completes and sends all chunks. -/
theorem runChunks_all_ok (tw : List Nat → Except String Unit) :
    ∀ cs : List (List Nat), (∀ c ∈ cs, tw c = .ok ()) →
      runChunks tw cs = (.ok (), cs) := by
  intro cs
  induction cs with
  | nil => intro _; rfl
  | cons c cs ih =>
    intro h
    have hc : tw c = .ok () := h c (List.mem_cons_self c cs)
    simp only [runChunks, hc]
    rw [ih (fun x hx => h x (List.mem_cons_of_mem c hx))]

/-- When the loop reports an error, the error came from the transport on the
last chunk attempted, every earlier attempt succeeded, and the loop stopped
there (the failure propagates immediately, with no retry). -/
theorem runChunks_error (tw : List Nat → Except String Unit) :
    ∀ (cs : List (List Nat)) (e : String), (runChunks tw cs).1 = .error e →
      ∃ pre c, (runChunks tw cs).2 = pre ++ [c] ∧ tw c = .error e ∧
        ∀ c' ∈ pre, tw c' = .ok () := by
  intro cs
  induction cs with
  | nil => intro e h; simp [runChunks] at h
  | cons c cs ih =>
    intro e h
    simp only [runChunks] at h ⊢
    revert h
    cases htw : tw c with
    | error e2 =>
      intro h
      simp at h
      subst h
      exact ⟨[], c, rfl, htw, by simp⟩
    | ok u =>
      intro h
      simp at h ⊢
      obtain ⟨pre, c2, hsplit, herr, hpre⟩ := ih e h
      refine ⟨c :: pre, c2, by simp [hsplit], herr, ?_⟩
      intro c' hc'
      rcases List.mem_cons.mp hc' with h' | h'
      · subst h'
        cases u
        exact htw
      · exact hpre c' h'

/-- A non-empty line wraps into the plain chunk list (the `or [""]` default
in `_wrap_line` only fires for an empty line). -/
theorem wrap_line_eq_chunkList (cols : Nat) (line : Text) (hl : line ≠ []) :
    wrap_line cols line = chunkList line.length cols line := by
  unfold wrap_line
  rw [if_neg]
  intro hcon
  rcases (chunkList_eq_nil_iff line.length cols line).mp (List.isEmpty_iff.mp hcon) with h | h
  · exact hl h
  · exact hl (List.length_eq_zero.mp h)

/-! ## Claim theorems -/

/-- C4: `log` splits its input on newlines; with wrap enabled each logical
line is sliced into consecutive chunks of at most `cols` characters whose
concatenation is the line, all full (`= cols`) except possibly the last, an
empty line giving exactly one empty entry and never zero entries; with wrap
disabled each logical line becomes the single entry `line[:cols]`.  On a
fresh 20-column console, `log("A"*45)` appends entries of lengths 20, 20, 5
with wrap on and a single entry of length 20 with wrap off, and `log("")`
appends exactly one empty entry. -/
theorem log_wrapping_and_truncation :
    (∀ line : Text,
      (wrap_line 20 line).flatten = line ∧
      (∀ c ∈ wrap_line 20 line, c.length ≤ 20) ∧
      (∀ i : Nat, i + 1 < (wrap_line 20 line).length →
        ((wrap_line 20 line).getD i []).length = 20) ∧
      wrap_line 20 line ≠ []) ∧
    wrap_line 20 [] = [[]] ∧
    (∀ text : Text, logEntries 20 true text = (splitOnNl text).flatMap (wrap_line 20)) ∧
    (∀ text : Text, logEntries 20 false text = (splitOnNl text).map (fun l => l.take 20)) ∧
    (logBuf 20 true [] (List.replicate 45 'A')).map List.length = [20, 20, 5] ∧
    (logBuf 20 false [] (List.replicate 45 'A')).map List.length = [20] ∧
    logBuf 20 true [] [] = [[]] := by
  refine ⟨?_, by decide, fun text => rfl, fun text => ?_, by decide, by decide, by decide⟩
  · intro line
    by_cases hl : line = []
    · subst hl
      refine ⟨by decide, by decide, ?_, by decide⟩
      intro i hi
      have hw : wrap_line 20 ([] : Text) = [[]] := rfl
      rw [hw] at hi
      simp at hi
    · rw [wrap_line_eq_chunkList 20 line hl]
      refine ⟨chunkList_flatten (by norm_num) _ _ le_rfl,
        fun c hc => (chunkList_mem (by norm_num) _ _ c hc).1,
        fun i hi => chunkList_getD_full (by norm_num) _ _ i le_rfl hi, ?_⟩
      intro hcon
      rcases (chunkList_eq_nil_iff line.length 20 line).mp hcon with h | h
      · exact hl h
      · exact hl (List.length_eq_zero.mp h)
  · show (splitOnNl text).flatMap (fun l => [l.take 20]) = _
    induction splitOnNl text with
    | nil => rfl
    | cons h t ih => simp_all

/-- C4 witness: the wrap facts evaluated on the concrete 45-character line. -/
theorem log_wrapping_and_truncation_witness :
    (wrap_line 20 (List.replicate 45 'A')).flatten = List.replicate 45 'A' ∧
    (List.replicate 20 'A' ∈ wrap_line 20 (List.replicate 45 'A') →
      (List.replicate 20 'A').length ≤ 20) ∧
    (0 + 1 < (wrap_line 20 (List.replicate 45 'A')).length) ∧
    ((wrap_line 20 (List.replicate 45 'A')).getD 0 []).length = 20 := by
  refine ⟨(log_wrapping_and_truncation.1 (List.replicate 45 'A')).1,
    fun hm => (log_wrapping_and_truncation.1 (List.replicate 45 'A')).2.1 _ hm,
    by decide,
    (log_wrapping_and_truncation.1 (List.replicate 45 'A')).2.2.1 0 (by decide)⟩

/-- C5: after every `log` the buffer is exactly the last `MAX_HISTORY`
entries of the extended buffer — so its length never exceeds `MAX_HISTORY`
and the most recent entries are retained in their original relative order —
and on a fresh console the five logs `"first"` … `"fifth"` leave exactly
`["second", "third", "fourth", "fifth"]`. -/
theorem history_bound_and_recency :
    (∀ (w : Bool) (buf : List Text) (text : Text),
      logBuf 20 w buf text =
        (buf ++ logEntries 20 w text).drop
          ((buf ++ logEntries 20 w text).length - MAX_HISTORY) ∧
      (logBuf 20 w buf text).length ≤ MAX_HISTORY) ∧
    (["first", "second", "third", "fourth", "fifth"].foldl
        (fun b s => logBuf 20 true b s.toList) []) =
      ["second".toList, "third".toList, "fourth".toList, "fifth".toList] := by
  constructor
  · intro w buf text
    refine ⟨logBuf_eq_drop 20 w buf text, ?_⟩
    rw [logBuf_eq_drop, List.length_drop]
    omega
  · decide

/-- C1 (evidence of the code bug): in `"top"` orientation, after logging
`"a"` then `"b"` on a fresh console, `_render` shows the entries in
chronological order — the top row holds the older entry `"a"`, not the most
recent entry `"b"` as the specification requires — because `_render` takes
`buffer[:rows]` without reversing. -/
theorem top_orientation_shows_oldest_first :
    renderRows 20 4 Orient.top (logBuf 20 true (logBuf 20 true [] ['a']) ['b']) =
      [padRight ['a'] 20, padRight ['b'] 20, padRight [] 20, padRight [] 20] ∧
    (renderRows 20 4 Orient.top
        (logBuf 20 true (logBuf 20 true [] ['a']) ['b'])).getD 0 [] ≠
      padRight ['b'] 20 := by
  exact ⟨by decide, by decide⟩

/-- C9: every render, in both orientations and for every buffer content,
produces exactly `rows` rendered rows, each truncated and right-padded to
exactly `cols` characters, and the driver trace is one `set_cursor(0, r)` +
`write` pair per row followed by a single trailing flush. -/
theorem render_rows_exact_width_trace (o : Orient) (buf : List Text) :
    (renderRows 20 4 o buf).length = 4 ∧
    (∀ t ∈ renderRows 20 4 o buf, t.length = 20) ∧
    renderTrace 20 4 o buf =
      ((renderRows 20 4 o buf).enum.map
          (fun p => [LcdOp.setCursor 0 p.1, LcdOp.write p.2])).flatten
        ++ [LcdOp.flushOp] := by
  refine ⟨?_, ?_, ?_⟩
  · rw [renderRows, List.length_map, renderVisible_length]
  · intro t ht
    rw [renderRows, List.mem_map] at ht
    obtain ⟨x, hx, rfl⟩ := ht
    rw [padRight_length, List.length_take]
    omega
  · simp only [renderTrace, renderRows, List.enum_map, List.map_map]
    rfl

/-- C9 witness: the row-width fact evaluated on a concrete one-entry buffer. -/
theorem render_rows_exact_width_trace_witness :
    (padRight (List.take 20 ['x']) 20 ∈ renderRows 20 4 Orient.bottom [['x']]) ∧
    (padRight (List.take 20 ['x']) 20).length = 20 := by
  refine ⟨by decide, ?_⟩
  exact (render_rows_exact_width_trace Orient.bottom [['x']]).2.1 _ (by decide)

/-- C6 counterexample: a `bytes` value passed to `log` is *not* decoded as
UTF-8 for buffering.  `b"hi"` is valid UTF-8 for `"hi"`, yet a fresh console
buffers the single entry `"b'hi'"` — the `str()` repr — not `"hi"`. -/
theorem log_bytes_buffers_repr_not_utf8 :
    utf8Decode [104, 105] = some ['h', 'i'] ∧
    logPy 20 true [] (PyVal.bytes [104, 105]) =
      [['b', Char.ofNat 39, 'h', 'i', Char.ofNat 39]] ∧
    logPy 20 true [] (PyVal.bytes [104, 105]) ≠ [['h', 'i']] := by
  exact ⟨by decide, by decide, by decide⟩

/-- C6 (amended): `log` converts `bytes`/`bytearray` input with `str()` —
producing its repr, a conversion that is total and never raises — and
buffers that string; the UTF-8-decode-with-fallback conversion lives only in
the render-time helper `_to_str`, which returns `str` entries unchanged and
the UTF-8 decoding of any valid-UTF-8 `bytes` value, whatever the platform
default-codec fallback does. -/
theorem log_bytes_str_conversion :
    (∀ (cols : Nat) (w : Bool) (buf : List Text) (b : List Nat),
      logPy cols w buf (PyVal.bytes b) = logBuf cols w buf (bytesRepr b)) ∧
    (∀ (fb : List Nat → Except Unit Text) (s : Text),
      to_str fb (PyVal.str s) = .ok s) ∧
    (∀ (fb : List Nat → Except Unit Text) (b : List Nat) (s : Text),
      utf8Decode b = some s → to_str fb (PyVal.bytes b) = .ok s) := by
  refine ⟨fun _ _ _ _ => rfl, fun _ _ => rfl, ?_⟩
  intro fb b s h
  simp [to_str, h]

/-- C6 witness: `_to_str` applied to the valid-UTF-8 bytes `b"hi"` decodes
them, for an arbitrary concrete fallback. -/
theorem log_bytes_str_conversion_witness :
    utf8Decode [104, 105] = some ['h', 'i'] ∧
    to_str (fun _ => .error ()) (PyVal.bytes [104, 105]) = .ok ['h', 'i'] := by
  refine ⟨by decide, ?_⟩
  exact log_bytes_str_conversion.2.2 (fun _ => .error ()) [104, 105] ['h', 'i'] (by decide)

/-- The byte queued by `_write_nibble` never has the enable bit set before
the strobe is OR'd in, for any nibble, any register-select value and any
reachable backlight latch (`0x00` or `_MASK_BL`). -/
theorem nibble_byte_enable_clear (x bl r : Nat)
    (hbl : bl = 0 ∨ bl = MASK_BL) (hr : r = 0 ∨ r = MASK_RS) :
    ((x &&& 0xF0) ||| bl ||| r) &&& MASK_E = 0 := by
  have hx : (x &&& 0xF0) &&& MASK_E = 0 := by
    rw [Nat.and_assoc]
    have h240 : (0xF0 &&& MASK_E) = 0 := by decide
    rw [h240, Nat.and_zero]
  rw [Nat.and_distrib_right, Nat.and_distrib_right, hx]
  rcases hbl with hbl | hbl <;> rcases hr with hr | hr <;> subst hbl <;> subst hr <;> decide

/-- C2: every logical byte sent with `_send_byte` (command when `rs` is
false, data when `rs` is true) appends exactly four bytes to the write
buffer: two 4-bit transfers, high nibble first, where each transfer is the
nibble OR'd with the current backlight bit and the register-select bit, once
with the enable bit set and then the identical byte with the enable bit
cleared (the un-strobed byte indeed has a clear enable bit). -/
theorem send_byte_two_nibble_transfers (st : LCDState) (b : Nat) (rs : Bool)
    (hbl : st.backlight = 0 ∨ st.backlight = MASK_BL) :
    (send_byte st b rs).writeBuffer =
      st.writeBuffer ++
        [((b &&& 0xF0) ||| st.backlight ||| (if rs then MASK_RS else 0)) ||| MASK_E,
         (b &&& 0xF0) ||| st.backlight ||| (if rs then MASK_RS else 0),
         (((b <<< 4) &&& 0xF0) ||| st.backlight ||| (if rs then MASK_RS else 0)) ||| MASK_E,
         ((b <<< 4) &&& 0xF0) ||| st.backlight ||| (if rs then MASK_RS else 0)] ∧
    ((b &&& 0xF0) ||| st.backlight ||| (if rs then MASK_RS else 0)) &&& MASK_E = 0 ∧
    (((b <<< 4) &&& 0xF0) ||| st.backlight ||| (if rs then MASK_RS else 0)) &&& MASK_E = 0 := by
  refine ⟨?_, ?_, ?_⟩
  · have h240 : (240 &&& 240 : Nat) = 240 := by decide
    have hmask : ∀ x : Nat, x &&& 240 &&& 240 = x &&& 240 := by
      intro x
      rw [Nat.and_assoc, h240]
    simp [send_byte, write_nibble, hmask]
  · exact nibble_byte_enable_clear b st.backlight _ hbl (by cases rs <;> simp [MASK_RS])
  · exact nibble_byte_enable_clear (b <<< 4) st.backlight _ hbl (by cases rs <;> simp [MASK_RS])

/-- C2 witness: sending the data byte `0xAB` with the backlight on appends
the four transfer bytes `0xAD, 0xA9, 0xBD, 0xB9`. -/
theorem send_byte_two_nibble_transfers_witness :
    ((8 : Nat) = 0 ∨ (8 : Nat) = MASK_BL) ∧
    (send_byte ⟨true, false, false, 8, []⟩ 0xAB true).writeBuffer =
      [0xAD, 0xA9, 0xBD, 0xB9] := by
  refine ⟨by decide, ?_⟩
  have h := send_byte_two_nibble_transfers ⟨true, false, false, 8, []⟩ 0xAB true (by decide)
  exact h.1.trans (by decide)

/-- C10: `set_backlight` leaves the write buffer untouched (nothing
appended, flushed or cleared), performs exactly one single-byte transport
write, and that byte has the enable and register-select bits clear — at most
the backlight bit is set — so a backlight toggle never sends pending
buffered bytes and never emits an enable strobe. -/
theorem set_backlight_no_buffer_no_strobe (st : LCDState) (onOff : Bool) :
    (set_backlight st onOff).1.writeBuffer = st.writeBuffer ∧
    (set_backlight st onOff).2 = [[if onOff then MASK_BL else 0x00]] ∧
    (if onOff then MASK_BL else 0x00) &&& MASK_E = 0 ∧
    (if onOff then MASK_BL else 0x00) &&& MASK_RS = 0 ∧
    ((if onOff then MASK_BL else 0x00) ||| MASK_BL) = MASK_BL := by
  cases onOff <;> exact ⟨rfl, rfl, by decide, by decide, by decide⟩

/-- C3: `flush` drains the write buffer to the transport in chunks of at
most 8 bytes whose concatenation is the whole buffer; the chunks actually
attempted are an initial segment of that chunk list (each sent once, in
order, no retry); on all-success every chunk is sent and the call returns
ok; on a transport failure the error of the first failing chunk propagates
(all earlier chunks succeeded, none after it is attempted); and in every
case — success or failure — the write buffer is left empty. -/
theorem flush_chunked_drain_and_clear (tw : List Nat → Except String Unit) (buf : List Nat) :
    (flushBuffer tw buf).2.1 = [] ∧
    (chunksOf8 buf).flatten = buf ∧
    (∀ c ∈ chunksOf8 buf, c.length ≤ 8 ∧ c ≠ []) ∧
    (∃ rest, (flushBuffer tw buf).2.2 ++ rest = chunksOf8 buf) ∧
    ((∀ c ∈ chunksOf8 buf, tw c = .ok ()) →
      (flushBuffer tw buf).1 = .ok () ∧ (flushBuffer tw buf).2.2 = chunksOf8 buf) ∧
    (∀ e : String, (flushBuffer tw buf).1 = .error e →
      ∃ pre c, (flushBuffer tw buf).2.2 = pre ++ [c] ∧ tw c = .error e ∧
        ∀ c' ∈ pre, tw c' = .ok ()) := by
  by_cases hb : buf.isEmpty
  · have hnil : buf = [] := List.isEmpty_iff.mp hb
    subst hnil
    refine ⟨rfl, rfl, by simp [chunksOf8, chunkList], ⟨[], rfl⟩, fun _ => ⟨rfl, rfl⟩, ?_⟩
    intro e he
    simp [flushBuffer] at he
  · have hfb : flushBuffer tw buf =
        ((runChunks tw (chunksOf8 buf)).1, [], (runChunks tw (chunksOf8 buf)).2) := by
      simp [flushBuffer, hb]
    refine ⟨by rw [hfb], chunkList_flatten (by norm_num) _ _ le_rfl,
      fun c hc => chunkList_mem (by norm_num) _ _ c hc, ?_, ?_, ?_⟩
    · rw [hfb]
      exact runChunks_initial_segment tw (chunksOf8 buf)
    · intro h
      rw [hfb, runChunks_all_ok tw (chunksOf8 buf) h]
      exact ⟨rfl, rfl⟩
    · intro e he
      rw [hfb] at he ⊢
      exact runChunks_error tw (chunksOf8 buf) e he

/-- C3 witness: flushing a ten-byte buffer against a transport that rejects
the short second chunk fails with that error, yet leaves the buffer empty,
after attempting exactly the chunks up to the failing one. -/
theorem flush_chunked_drain_and_clear_witness :
    (flushBuffer (fun c => if c.length < 8 then Except.error "boom" else Except.ok ())
        (List.range 10)).1 = Except.error "boom" ∧
    (flushBuffer (fun c => if c.length < 8 then Except.error "boom" else Except.ok ())
        (List.range 10)).2.1 = [] ∧
    (∃ pre c,
      (flushBuffer (fun c => if c.length < 8 then Except.error "boom" else Except.ok ())
          (List.range 10)).2.2 = pre ++ [c] ∧
      (if c.length < 8 then Except.error "boom" else Except.ok ()) = Except.error "boom" ∧
      ∀ c' ∈ pre, (if c'.length < 8 then Except.error "boom" else Except.ok ()) =
        Except.ok ()) := by
  refine ⟨by rfl, ?_, ?_⟩
  · exact (flush_chunked_drain_and_clear
      (fun c => if c.length < 8 then Except.error "boom" else Except.ok ())
      (List.range 10)).1
  · exact (flush_chunked_drain_and_clear
      (fun c => if c.length < 8 then Except.error "boom" else Except.ok ())
      (List.range 10)).2.2.2.2.2 "boom" (by rfl)

/-- C7: out-of-range inputs are never an error.  `set_cursor` clamps every
integer `(col, row)` — negative or over-range — into
`[0, 19] × [0, 3]` and addresses DDRAM at `rowOffset[row] + col` of the
clamped position; `create_char` writes every integer glyph index to slot
`index mod 8`, emits exactly 8 data bytes, treats bitmap rows beyond the
list length as zero, and masks every written byte below 32 (top 3 bits
clear). -/
theorem set_cursor_clamps_and_create_char_masks :
    (∀ col row : Int,
      0 ≤ (set_cursor_pos col row).1 ∧ (set_cursor_pos col row).1 ≤ 19 ∧
      0 ≤ (set_cursor_pos col row).2 ∧ (set_cursor_pos col row).2 ≤ 3 ∧
      set_cursor_addr col row =
        ROW_OFFSETS.getD (set_cursor_pos col row).2.toNat 0 +
          (set_cursor_pos col row).1.toNat) ∧
    (∀ index : Int,
      (create_char_slot index : Int) = index % 8 ∧ create_char_slot index < 8) ∧
    (∀ bitmap : List Int,
      (create_char_data bitmap).length = 8 ∧
      (∀ v ∈ create_char_data bitmap, v < 32) ∧
      (∀ i : Nat, i < 8 → bitmap.length ≤ i → (create_char_data bitmap).getD i 99 = 0)) := by
  refine ⟨?_, ?_, ?_⟩
  · intro col row
    refine ⟨?_, ?_, ?_, ?_, rfl⟩ <;>
      simp only [set_cursor_pos, clampCol, clampRow] <;> split_ifs <;> omega
  · intro index
    have hnn : 0 ≤ Int.land index 7 := by
      rw [int_land_seven]
      exact Int.emod_nonneg index (by norm_num)
    have hlt : Int.land index 7 < 8 := by
      rw [int_land_seven]
      exact Int.emod_lt_of_pos index (by norm_num)
    constructor
    · rw [create_char_slot, Int.toNat_of_nonneg hnn, int_land_seven]
    · rw [create_char_slot]
      omega
  · intro bitmap
    refine ⟨by simp [create_char_data], ?_, ?_⟩
    · intro v hv
      simp only [create_char_data, List.mem_map, List.mem_range] at hv
      obtain ⟨i, hi, rfl⟩ := hv
      have h := int_land_thirtyone (bitmap.getD i 0)
      have hlt : Int.land (bitmap.getD i 0) 31 < 32 := by
        rw [h]
        exact Int.emod_lt_of_pos _ (by norm_num)
      omega
    · intro i hi hlen
      have hgd : bitmap.getD i 0 = 0 := List.getD_eq_default bitmap 0 hlen
      have hilt : i < ((List.range 8).map
          (fun j => (Int.land (bitmap.getD j 0) 31).toNat)).length := by
        simp
        omega
      rw [create_char_data, List.getD_eq_getElem _ _ hilt, List.getElem_map,
        List.getElem_range, hgd]
      decide

/-- C7 witness: the negative glyph index `-3` lands in slot `5`, and with
the two-row bitmap `[1, 2]` the third data byte (row index 2, beyond the
bitmap) is zero. -/
theorem set_cursor_clamps_and_create_char_masks_witness :
    ((create_char_slot (-3) : Int) = (-3 : Int) % 8) ∧
    ((2 : Nat) < 8) ∧ (List.length [(1 : Int), 2] ≤ 2) ∧
    (create_char_data [1, 2]).getD 2 99 = 0 := by
  refine ⟨?_, by decide, by decide, ?_⟩
  · exact (set_cursor_clamps_and_create_char_masks.2.1 (-3)).1
  · exact (set_cursor_clamps_and_create_char_masks.2.2 [1, 2]).2.2 2 (by decide) (by decide)

/-- C8: an explicitly supplied candidate address is used without scanning
the bus; otherwise the scan decides: an empty scan fails with the
device-not-found error — and `__init__` then aborts before any bus write —
while a non-empty scan yields `0x27` if present, else `0x3F` if present,
else the first scanned address, in that fixed priority order. -/
theorem address_resolution_priority :
    (∀ (a : Nat) (scan : List Nat), resolve_address (some a) scan = (.ok a, false)) ∧
    detect_address [] = .error "No I2C devices found for LCD2004." ∧
    (∀ scan : List Nat, 0x27 ∈ scan → detect_address scan = .ok 0x27) ∧
    (∀ scan : List Nat, 0x27 ∉ scan → 0x3F ∈ scan → detect_address scan = .ok 0x3F) ∧
    (∀ (a : Nat) (rest : List Nat), 0x27 ∉ a :: rest → 0x3F ∉ a :: rest →
      detect_address (a :: rest) = .ok a) ∧
    (∀ (bl af : Bool), lcdInit none [] bl af =
      (.error "No I2C devices found for LCD2004.", [])) := by
  refine ⟨fun a scan => rfl, rfl, ?_, ?_, ?_, fun bl af => rfl⟩
  · intro scan h
    cases scan with
    | nil => simp at h
    | cons a rest => simp only [detect_address, if_pos h]
  · intro scan h27 h3F
    cases scan with
    | nil => simp at h3F
    | cons a rest => simp only [detect_address, if_neg h27, if_pos h3F]
  · intro a rest h27 h3F
    simp only [detect_address, if_neg h27, if_neg h3F]

/-- C8 witness: on the concrete scan `[0x05, 0x3F]` (no `0x27` present) the
resolver picks `0x3F`. -/
theorem address_resolution_priority_witness :
    ((0x27 : Nat) ∉ [0x05, 0x3F]) ∧ ((0x3F : Nat) ∈ [0x05, 0x3F]) ∧
    detect_address [0x05, 0x3F] = .ok 0x3F := by
  refine ⟨by decide, by decide, ?_⟩
  exact address_resolution_priority.2.2.2.1 [0x05, 0x3F] (by decide) (by decide)
